import Mathlib

/-!
Verification development for the Coglex-Mongo authentication core.

This file gives a shallow embedding, in Lean 4, of the authentication and
credential-verification core of the repository:

* `src/utils.py` — secret utilities (`phash`, `pcheck`, `jwtenc`, `jwtdec`);
* `src/coglex/services/storage/utils.py` — the MongoDB store adapter
  (`_find`, `_insert`, `_patch`);
* `src/coglex/services/auth/utils.py` — the auth core
  (`_signup`, `_signin`, `_retrieve`, `_refresh`, `_passgen`, `_passver`);
* `src/coglex/__init__.py` — the `authenticated` request decorator.

MongoDB documents are modelled as association lists of string keys and
dynamically typed values (the shape Python dicts give them); the single
collection the auth core operates on is a list of documents.  Randomness
(bcrypt salts, OTP digits, generated ids) is threaded explicitly.  Wall-clock
time is an explicit `Nat` parameter and JWT expiration claims are absolute
instants, as they are inside PyJWT.
-/

namespace Coglex

/-- Dynamically typed document values: the subset of BSON/JSON values the
auth core actually stores and filters on. -/
inductive Value where
  | vNull : Value
  | vStr : String → Value
  | vInt : Int → Value
  | vBool : Bool → Value
deriving DecidableEq, Repr

/-- A document (or filter, or payload): a Python dict as an association list. -/
abbrev Doc := List (String × Value)

/-- Python truthiness of a value (`if _password:` style tests). -/
def truthy : Value → Bool
  | Value.vNull => false
  | Value.vStr s => !s.isEmpty
  | Value.vInt n => n != 0
  | Value.vBool b => b

/-- Dictionary lookup: `d.get(k)`, first entry wins. -/
def dget : Doc → String → Option Value
  | [], _ => none
  | p :: rest, k => if p.1 = k then some p.2 else dget rest k

/-- Whether a key is present in a document. -/
def hasKey : Doc → String → Bool
  | [], _ => false
  | p :: rest, k => p.1 == k || hasKey rest k

/-- Replace the value at every entry whose key is `k` (helper for `dset`). -/
def setAll : Doc → String → Value → Doc
  | [], _, _ => []
  | p :: rest, k, v => (if p.1 = k then (k, v) else p) :: setAll rest k v

/-- Dictionary update `d[k] = v`: replace in place when present (Python keeps
the original insertion position), append otherwise. -/
def dset (d : Doc) (k : String) (v : Value) : Doc :=
  if hasKey d k then setAll d k v else d ++ [(k, v)]

/-- Python dict merge `{**base, **extra}`: entries of `extra` override. -/
def dmerge (base extra : Doc) : Doc :=
  extra.foldl (fun acc p => dset acc p.1 p.2) base

/-- Python `d.pop(k)`'s effect on the dict: drop every entry with key `k`. -/
def popKey (d : Doc) (k : String) : Doc :=
  d.filter (fun p => !(p.1 == k))

theorem dget_eq_none_iff (d : Doc) (k : String) :
    dget d k = none ↔ hasKey d k = false := by
  induction d with
  | nil => simp [dget, hasKey]
  | cons p rest ih =>
    simp only [dget, hasKey]
    by_cases h : p.1 = k
    · simp [h]
    · simp [h, ih, (by simpa using h : (p.1 == k) = false)]

theorem dget_append (d e : Doc) (k : String) :
    dget (d ++ e) k = match dget d k with
      | some v => some v
      | none => dget e k := by
  induction d with
  | nil => simp [dget]
  | cons p rest ih =>
    by_cases h : p.1 = k
    · simp [dget, h]
    · simp [dget, h, ih]

theorem dget_setAll_self (d : Doc) (k : String) (v : Value) :
    dget (setAll d k v) k = if hasKey d k then some v else none := by
  induction d with
  | nil => simp [setAll, dget, hasKey]
  | cons p rest ih =>
    by_cases h : p.1 = k
    · simp [setAll, dget, h, hasKey]
    · simp [setAll, dget, h, hasKey, ih, (by simpa using h : (p.1 == k) = false)]

theorem dget_setAll_ne (d : Doc) (k v : _) (k' : String) (h : k' ≠ k) :
    dget (setAll d k v) k' = dget d k' := by
  induction d with
  | nil => simp [setAll]
  | cons p rest ih =>
    by_cases hp : p.1 = k
    · have : ¬(k = k') := fun hh => h hh.symm
      simp [setAll, dget, hp, this, ih]
    · by_cases hp' : p.1 = k'
      · simp [setAll, dget, hp, hp', h]
      · simp [setAll, dget, hp, hp', h, ih]

theorem dget_dset (d : Doc) (k : String) (v : Value) (k' : String) :
    dget (dset d k v) k' = if k' = k then some v else dget d k' := by
  unfold dset
  by_cases hk : hasKey d k
  · by_cases h : k' = k
    · subst h; simp [hk, dget_setAll_self]
    · simp [hk, h, dget_setAll_ne d k v k' h]
  · rw [if_neg hk, dget_append]
    by_cases h : k' = k
    · subst h
      have : dget d k' = none := (dget_eq_none_iff d k').2 (by simpa using hk)
      simp [this, dget]
    · have : ¬(k = k') := fun hh => h hh.symm
      simp only [if_neg h]
      cases hd : dget d k' <;> simp [hd, dget, this]

theorem dget_dmerge_of_absent (base extra : Doc) (k : String)
    (h : hasKey extra k = false) :
    dget (dmerge base extra) k = dget base k := by
  induction extra generalizing base with
  | nil => simp [dmerge]
  | cons p rest ih =>
    simp only [hasKey, Bool.or_eq_false_iff] at h
    have hstep : dmerge base (p :: rest) = dmerge (dset base p.1 p.2) rest := by
      simp [dmerge]
    rw [hstep, ih _ h.2, dget_dset]
    have : ¬(k = p.1) := by
      intro hh
      have hb := h.1
      rw [hh] at hb
      simp at hb
    simp [this]

theorem dget_mem (d : Doc) (k : String) (v : Value) (h : dget d k = some v) :
    (k, v) ∈ d := by
  induction d with
  | nil => simp [dget] at h
  | cons p rest ih =>
    by_cases hp : p.1 = k
    · simp only [dget, if_pos hp] at h
      have hpkv : p = (k, v) := by
        cases p
        simp_all
      rw [hpkv]
      exact List.mem_cons_self _ _
    · simp only [dget, if_neg hp] at h
      exact List.mem_cons_of_mem _ (ih h)

theorem popKey_cons_self (p : String × Value) (rest : Doc) (k : String)
    (hp : p.1 = k) : popKey (p :: rest) k = popKey rest k := by
  simp [popKey, List.filter_cons, hp]

theorem popKey_cons_ne (p : String × Value) (rest : Doc) (k : String)
    (hp : ¬p.1 = k) : popKey (p :: rest) k = p :: popKey rest k := by
  simp [popKey, List.filter_cons, hp]

theorem dget_popKey_self (d : Doc) (k : String) :
    dget (popKey d k) k = none := by
  induction d with
  | nil => simp [popKey, dget]
  | cons p rest ih =>
    by_cases hp : p.1 = k
    · rw [popKey_cons_self p rest k hp, ih]
    · rw [popKey_cons_ne p rest k hp, dget, if_neg hp, ih]

theorem dget_popKey_ne (d : Doc) (k k' : String) (h : k' ≠ k) :
    dget (popKey d k) k' = dget d k' := by
  induction d with
  | nil => simp [popKey]
  | cons p rest ih =>
    by_cases hp : p.1 = k
    · have hpk' : ¬(p.1 = k') := by rw [hp]; exact fun hh => h hh.symm
      rw [popKey_cons_self p rest k hp, ih, dget, if_neg hpk']
    · rw [popKey_cons_ne p rest k hp]
      by_cases hp' : p.1 = k'
      · simp [dget, hp']
      · simp [dget, hp', ih]

/-- One equality condition of a flat MongoDB filter.  A null condition
matches a document where the field is null or missing; any other value
requires the field to be present and equal. -/
def valueMatches (d : Doc) (k : String) (v : Value) : Bool :=
  match v with
  | Value.vNull => dget d k == some Value.vNull || !(hasKey d k)
  | v => dget d k == some v

/-- Whether a document satisfies a flat equality filter (`collection.find`). -/
def docMatches (q : Doc) (d : Doc) : Bool :=
  q.all (fun p => valueMatches d p.1 p.2)

/-- The auth collection: the stored user documents, in insertion order (the
order Mongo returns them for these queries). -/
abbrev Store := List Doc

/-- Result of the adapter's `_find`: `None` when nothing matches, the bare
document when exactly one does, the list of documents otherwise. -/
inductive FindResult where
  | noneFound : FindResult
  | one : Doc → FindResult
  | many : List Doc → FindResult
deriving DecidableEq, Repr

/-- Python truthiness of a `_find` result (`if _find(...)`): `None` is
falsy, a dict is truthy iff nonempty, a list is truthy iff nonempty. -/
def FindResult.toBool : FindResult → Bool
  | FindResult.noneFound => false
  | FindResult.one d => !d.isEmpty
  | FindResult.many ds => !ds.isEmpty

/-- `_find` of `src/coglex/services/storage/utils.py`: list the matching
documents, then collapse to `None` / single dict / list. -/
def _find (store : Store) (query : Doc) : FindResult :=
  match store.filter (fun d => docMatches query d) with
  | [] => FindResult.noneFound
  | [d] => FindResult.one d
  | ds => FindResult.many ds

/-- Modelled from the spec: `hexgen` is imported by the storage adapter from
`utils` but is absent from the source tree; per the spec, `_id` is a
"system-generated unique identifier, assigned at insert time".  The
generator is modelled as a counter-indexed fresh string. -/
def hexgen (n : Nat) : String := "hex" ++ toString n

/-- State threaded through the inserting operations: the collection plus
the id-generator counter. -/
structure AuthState where
  store : Store
  nextId : Nat
deriving DecidableEq, Repr

/-- Result of `_insert`: a single id string for one document, a list of ids
otherwise. -/
inductive InsertResult where
  | single : String → InsertResult
  | multiple : List String → InsertResult
deriving DecidableEq, Repr

/-- `_insert` of the storage adapter: each document is stored as
`{**document, "_id": hexgen()}` (the generated `_id` overrides any
caller-supplied one) and the inserted ids are returned. -/
def _insert (st : AuthState) (documents : List Doc) : InsertResult × AuthState :=
  let prepared := documents.enum.map
    (fun p => dset p.2 "_id" (Value.vStr (hexgen (st.nextId + p.1))))
  let references := documents.enum.map (fun p => hexgen (st.nextId + p.1))
  (match references with
   | [r] => InsertResult.single r
   | rs => InsertResult.multiple rs,
   ⟨st.store ++ prepared, st.nextId + documents.length⟩)

/-- Argument of one update operator: either a dict of field updates or some
other value (the auth core checks `isinstance(fields, dict)`). -/
inductive UpdateArg where
  | fields : Doc → UpdateArg
  | other : Value → UpdateArg
deriving DecidableEq, Repr

/-- An update-operator document, e.g. a dict mapping `$set` to field
updates, as passed verbatim to `update_many`. -/
abbrev UpdateSpec := List (String × UpdateArg)

/-- Apply one MongoDB update operator to a document.  `$set` (field merge)
and `$unset` (field removal) are modelled — the operators the auth core and
its spec exercise; operators outside the model act as the identity. -/
def applyOp (d : Doc) (op : String) (arg : UpdateArg) : Doc :=
  match arg with
  | UpdateArg.fields f =>
      if op = "$set" then dmerge d f
      else if op = "$unset" then f.foldl (fun acc p => popKey acc p.1) d
      else d
  | UpdateArg.other _ => d

/-- Apply a whole update-operator document: `update_many`'s effect on one
matching document. -/
def applyUpdate (spec : UpdateSpec) (d : Doc) : Doc :=
  spec.foldl (fun acc p => applyOp acc p.1 p.2) d

/-- `_patch` of the storage adapter: `update_many(query, document)`; returns
the modified-document count when at least one document matched the query,
`None` otherwise. -/
def _patch (store : Store) (document : UpdateSpec) (query : Doc) :
    Option Nat × Store :=
  let matchedCount := (store.filter (fun d => docMatches query d)).length
  let modifiedCount := (store.filter
    (fun d => docMatches query d && applyUpdate document d != d)).length
  let newStore := store.map
    (fun d => if docMatches query d then applyUpdate document d else d)
  (if 0 < matchedCount then some modifiedCount else none, newStore)

/-- The process-wide signing secret, `config.SERVER_SECRET`. -/
def SERVER_SECRET : String := "server-secret"

/-- `phash` of `src/utils.py`: bcrypt salted hashing, modelled as a
deterministic injective tag.  The randomized salt is abstracted away (no
claim here depends on salt variation); the properties kept are that the
hash differs from the plaintext and that `pcheck` accepts exactly the
password the hash was derived from. -/
def phash (password : String) : String := "bcrypt$" ++ password

/-- `pcheck` of `src/utils.py` (`bcrypt.checkpw`): true iff `hashed` is the
hash of `password`. -/
def pcheck (password hashed : String) : Bool := hashed == phash password

/-- A JWT payload's content as the auth core uses it: `jwtenc` wraps
arbitrary content under the reserved key; the content is a dict for session
tokens and a string for stateless OTP passcodes. -/
inductive JwtContent where
  | jStr : String → JwtContent
  | jDoc : Doc → JwtContent
deriving DecidableEq, Repr

/-- A token string, seen through the embedding: either a well-formed
HS256-signed token (content, optional absolute `exp` instant, signing key)
or a malformed string that PyJWT fails to parse at all. -/
inductive Token where
  | signed : JwtContent → Option Nat → String → Token
  | garbage : String → Token
deriving DecidableEq, Repr

/-- `jwtenc` of `src/utils.py`: payload holding the content plus an `exp`
claim when an expiration is provided (`None` gives a non-expiring token),
signed with the server secret. -/
def jwtenc (content : JwtContent) (expiration : Option Nat)
    (key : String := SERVER_SECRET) : Token :=
  Token.signed content expiration key

/-- `jwtdec` of `src/utils.py`: verify the signature and the expiration and
return the wrapped content; the surrounding `try/except` collapses every
failure — malformed token, wrong signature, expired — into `None`.  PyJWT
treats a token as expired once `exp <= now`, so a token is live iff
`now < exp`. -/
def jwtdec (token : Token) (now : Nat) (key : String := SERVER_SECRET) :
    Option JwtContent :=
  match token with
  | Token.garbage _ => none
  | Token.signed content exp k =>
      if k = key then
        match exp with
        | none => some content
        | some e => if now < e then some content else none
      else none

/-- Python truthiness of decoded JWT content (`if not content`). -/
def contentTruthy : JwtContent → Bool
  | JwtContent.jStr s => !s.isEmpty
  | JwtContent.jDoc d => !d.isEmpty

/-- The password value `_signup` stores: `if _password: _password =
phash(_password)` — a truthy (non-empty) password is hashed, `None` is
stored as null, and the falsy empty string is kept as is. -/
def signupPw : Option String → Value
  | none => Value.vNull
  | some p => if !p.isEmpty then Value.vStr (phash p) else Value.vStr p

/-- `_signup` of `src/coglex/services/auth/utils.py`: conflict check by
`_key` alone; hash the password when truthy (see `signupPw`); insert the
document built by spreading the caller's `document` after the injected
`_key` and `_password` — so caller-supplied entries for those keys
override the injected ones. -/
def _signup (st : AuthState) (_key : String) (_password : Option String)
    (document : Doc) : Option String × AuthState :=
  if (_find st.store [("_key", Value.vStr _key)]).toBool then (none, st)
  else
    match _insert st
        [dmerge [("_key", Value.vStr _key), ("_password", signupPw _password)]
          document] with
    | (InsertResult.single r, st') => (some r, st')
    | (InsertResult.multiple _, st') => (none, st')

/-- Result of `_signin`: a session token, `None` (no match, ambiguous
match, or failed password check — all indistinguishable to the caller), or
a raised exception (`bcrypt.checkpw` on a stored `_password` that is not a
string). -/
inductive SigninResult where
  | token : Token → SigninResult
  | unauthorized : SigninResult
  | raised : SigninResult
deriving DecidableEq, Repr

/-- The token-issuance tail of `_signin`: the payload carries the key, the
stored hash (`authentication.get("_password")`, null when absent) and the
query; the expiration is the configured session lifetime from now.  The
issued token is also written into the Flask session — boundary-layer state
outside this model, which no claim concerns. -/
def signinIssue (authentication : Doc) (_key : String) (query : Doc)
    (now lifetime : Nat) : SigninResult :=
  SigninResult.token (jwtenc
    (JwtContent.jDoc (dmerge
      [("_key", Value.vStr _key),
       ("_password", (dget authentication "_password").getD Value.vNull)]
      query))
    (some (now + lifetime)))

/-- `_signin` of `src/coglex/services/auth/utils.py`: look up
`{"_key": _key, **query}`; a missing, falsy or multi-match result fails;
when the caller supplies a truthy password it is checked against the
stored hash; on success the token is issued via `signinIssue`. -/
def _signin (store : Store) (_key : String) (_password : Option String)
    (query : Doc) (now lifetime : Nat) : SigninResult :=
  match _find store (dmerge [("_key", Value.vStr _key)] query) with
  | FindResult.noneFound => SigninResult.unauthorized
  | FindResult.many _ => SigninResult.unauthorized
  | FindResult.one authentication =>
      if authentication.isEmpty then SigninResult.unauthorized
      else
        match _password with
        | none => signinIssue authentication _key query now lifetime
        | some p =>
            if p.isEmpty then signinIssue authentication _key query now lifetime
            else
              match dget authentication "_password" with
              | some (Value.vStr h) =>
                  if pcheck p h then
                    signinIssue authentication _key query now lifetime
                  else SigninResult.unauthorized
              | _ => SigninResult.raised

/-- `_retrieve` of the auth core: pure lookup by `{"_key": _key, **query}`;
`None` unless exactly one (truthy) document matches.  Its only store
interaction is the read, so the returned store is the input store.  The
key is dynamically typed because the `authenticated` decorator passes it
the value popped from a token payload; direct callers pass a string. -/
def _retrieve (store : Store) (_key : Value) (query : Doc) :
    Option Doc × Store :=
  (match _find store (dmerge [("_key", _key)] query) with
   | FindResult.one authentication =>
       if authentication.isEmpty then none else some authentication
   | _ => none,
   store)

/-- The `construction` loop of `_refresh`: clone each `$set` whose dict
argument carries a truthy `_password` and hash that password in the clone.
`phash` (bcrypt) raises on a truthy value that is not a string; that case
yields `none` (the exception propagates). -/
def buildConstruction : UpdateSpec → Option UpdateSpec
  | [] => some []
  | (op, arg) :: rest =>
      let step : Option (String × UpdateArg) :=
        if op = "$set" then
          match arg with
          | UpdateArg.fields f =>
              match dget f "_password" with
              | some (Value.vStr s) =>
                  if !s.isEmpty then
                    some (op, UpdateArg.fields
                      (dset f "_password" (Value.vStr (phash s))))
                  else some (op, arg)
              | some v => if truthy v then none else some (op, arg)
              | none => some (op, arg)
          | UpdateArg.other _ => some (op, arg)
        else some (op, arg)
      match step, buildConstruction rest with
      | some s, some c => some (s :: c)
      | _, _ => none

/-- Result of `_refresh`: the Python `int | None` return, or a raised
exception from hashing a truthy non-string `$set` password. -/
inductive RefreshResult where
  | count : Option Nat → RefreshResult
  | raised : RefreshResult
deriving DecidableEq, Repr

/-- `_refresh` of the auth core: verify a record exists under
`{"_key": _key, **query}`, rebuild the update document hashing any `$set`
password, then patch with the filter `{"_key": _key}` alone — the `query`
is used only for the existence check. -/
def _refresh (store : Store) (_key : String) (document : UpdateSpec)
    (query : Doc) : RefreshResult × Store :=
  if !(_find store (dmerge [("_key", Value.vStr _key)] query)).toBool then
    (RefreshResult.count none, store)
  else
    match buildConstruction document with
    | none => (RefreshResult.raised, store)
    | some construction =>
        let r := _patch store construction [("_key", Value.vStr _key)]
        (RefreshResult.count r.1, r.2)

/-- `_passgen` of the auth core: draw `length` digits from the random
source (`secrets.randbelow(10)` per position, modelled as an explicit
digit oracle), and return the plaintext passcode together with a JWT
embedding it; `exp` is the absolute expiry instant carried by the token's
expiration claim. -/
def _passgen (digits : Nat → Nat) (length : Nat) (exp : Option Nat) :
    String × Token :=
  let passcode := String.join ((List.range length).map
    (fun i => toString (digits i % 10)))
  (passcode, jwtenc (JwtContent.jStr passcode) exp)

/-- `_passver` of the auth core: decode the token and compare the supplied
passcode with the decoded content (`passcode == jwtdec(token)`; comparing a
string against `None` or a dict is `False` in Python).  It keeps no state:
there is no challenge record, no attempt counter. -/
def _passver (passcode : String) (token : Token) (now : Nat) : Bool :=
  match jwtdec token now with
  | some (JwtContent.jStr s) => passcode == s
  | _ => false

/-- Outcome of the `authenticated` decorator of `src/coglex/__init__.py`:
the route runs with the retrieved user document, or the request is
rejected with 401, or an exception escapes (`content.pop` on a string
payload, or `KeyError` when the payload lacks `_key`). -/
inductive AuthCheck where
  | ok : Doc → AuthCheck
  | reject : AuthCheck
  | raised : AuthCheck
deriving DecidableEq, Repr

/-- The `authenticated` decorator's token check: take the bearer/session
token (`none` abstracts "absent from both the header and the session"),
decode it, pop `_key` from the payload, and re-verify the user through
`_retrieve` with the remaining payload entries as the lookup filter. -/
def authenticated (store : Store) (token : Option Token) (now : Nat) :
    AuthCheck :=
  match token with
  | none => AuthCheck.reject
  | some tok =>
      match jwtdec tok now with
      | none => AuthCheck.reject
      | some content =>
          if !contentTruthy content then AuthCheck.reject
          else
            match content with
            | JwtContent.jStr _ => AuthCheck.raised
            | JwtContent.jDoc payload =>
                match dget payload "_key" with
                | none => AuthCheck.raised
                | some keyVal =>
                    if !truthy keyVal then AuthCheck.reject
                    else
                      match (_retrieve store keyVal (popKey payload "_key")).1 with
                      | none => AuthCheck.reject
                      | some d => AuthCheck.ok d

theorem hasKey_eq_false_forall (d : Doc) (k : String) (h : hasKey d k = false) :
    ∀ q ∈ d, q.1 ≠ k := by
  induction d with
  | nil => simp
  | cons p rest ih =>
    simp only [hasKey, Bool.or_eq_false_iff] at h
    intro q hq
    rcases List.mem_cons.1 hq with h1 | h1
    · subst h1
      simpa using h.1
    · exact ih h.2 q h1

theorem hasKey_of_dget_some (d : Doc) (k : String) (v : Value)
    (h : dget d k = some v) : hasKey d k = true := by
  by_contra hc
  have : dget d k = none := (dget_eq_none_iff d k).2 (by simpa using hc)
  rw [this] at h
  exact Option.noConfusion h

theorem dget_ne_nil (d : Doc) (k : String) (v : Value)
    (h : dget d k = some v) : d ≠ [] := by
  intro hnil
  subst hnil
  simp [dget] at h

theorem hasKey_dset_self (f : Doc) (k : String) (v : Value) :
    hasKey (dset f k v) k = true := by
  have h := dget_dset f k v k
  simp only [if_pos rfl] at h
  exact hasKey_of_dget_some _ _ _ h

theorem setAll_uniform (f : Doc) (k : String) (v : Value) :
    ∀ q ∈ setAll f k v, q.1 = k → q.2 = v := by
  induction f with
  | nil => simp [setAll]
  | cons p rest ih =>
    intro q hq hqk
    simp only [setAll] at hq
    rcases List.mem_cons.1 hq with h1 | h1
    · by_cases hp : p.1 = k
      · rw [if_pos hp] at h1
        rw [h1]
      · rw [if_neg hp] at h1
        rw [h1] at hqk
        exact absurd hqk hp
    · exact ih q h1 hqk

theorem dset_uniform (f : Doc) (k : String) (v : Value) :
    ∀ q ∈ dset f k v, q.1 = k → q.2 = v := by
  unfold dset
  by_cases h : hasKey f k
  · simpa [h] using setAll_uniform f k v
  · rw [if_neg h]
    intro q hq hqk
    rcases List.mem_append.1 hq with h1 | h1
    · exact absurd hqk (hasKey_eq_false_forall f k (by simpa using h) q h1)
    · simp at h1
      rw [h1]

theorem setAll_uniform_other (f : Doc) (k' : String) (v' : Value) (k : String)
    (v : Value) (hk : k' ≠ k) (h : ∀ q ∈ f, q.1 = k → q.2 = v) :
    ∀ q ∈ setAll f k' v', q.1 = k → q.2 = v := by
  induction f with
  | nil => simp [setAll]
  | cons p rest ih =>
    intro q hq hqk
    simp only [setAll] at hq
    rcases List.mem_cons.1 hq with h1 | h1
    · by_cases hp : p.1 = k'
      · rw [if_pos hp] at h1
        rw [h1] at hqk
        exact absurd hqk hk
      · rw [if_neg hp] at h1
        subst h1
        exact h q (List.mem_cons_self _ _) hqk
    · exact ih (fun r hr hrk => h r (List.mem_cons_of_mem _ hr) hrk) q h1 hqk

theorem dset_uniform_other (f : Doc) (k' : String) (v' : Value) (k : String)
    (v : Value) (hk : k' ≠ k) (h : ∀ q ∈ f, q.1 = k → q.2 = v) :
    ∀ q ∈ dset f k' v', q.1 = k → q.2 = v := by
  unfold dset
  by_cases hf : hasKey f k'
  · rw [if_pos hf]
    exact setAll_uniform_other f k' v' k v hk h
  · rw [if_neg hf]
    intro q hq hqk
    rcases List.mem_append.1 hq with h1 | h1
    · exact h q h1 hqk
    · simp at h1
      rw [h1] at hqk
      exact absurd hqk hk

theorem dmerge_uniform (base extra : Doc) (k : String) (v : Value)
    (hbase : ∀ q ∈ base, q.1 = k → q.2 = v)
    (hextra : hasKey extra k = false) :
    ∀ q ∈ dmerge base extra, q.1 = k → q.2 = v := by
  induction extra generalizing base with
  | nil => simpa [dmerge] using hbase
  | cons p rest ih =>
    simp only [hasKey, Bool.or_eq_false_iff] at hextra
    have hstep : dmerge base (p :: rest) = dmerge (dset base p.1 p.2) rest := by
      simp [dmerge]
    rw [hstep]
    have hpk : p.1 ≠ k := by simpa using hextra.1
    exact ih (dset base p.1 p.2)
      (dset_uniform_other base p.1 p.2 k v hpk hbase) hextra.2

theorem dget_dmerge_of_uniform (base extra : Doc) (k : String) (v : Value)
    (hpresent : hasKey extra k = true)
    (huni : ∀ q ∈ extra, q.1 = k → q.2 = v) :
    dget (dmerge base extra) k = some v := by
  induction extra generalizing base with
  | nil => simp [hasKey] at hpresent
  | cons p rest ih =>
    have hstep : dmerge base (p :: rest) = dmerge (dset base p.1 p.2) rest := by
      simp [dmerge]
    rw [hstep]
    by_cases hr : hasKey rest k
    · exact ih _ hr (fun q hq => huni q (List.mem_cons_of_mem _ hq))
    · have hone : p.1 = k := by
        simp only [hasKey] at hpresent
        rcases Bool.or_eq_true_iff.1 hpresent with h1 | h1
        · simpa using h1
        · exact absurd h1 (by simpa using hr)
      rw [dget_dmerge_of_absent _ _ _ (by simpa using hr), dget_dset]
      have hv : p.2 = v := huni p (List.mem_cons_self _ _) hone
      simp [hone, hv]

theorem popKey_subset (d : Doc) (k : String) :
    ∀ q ∈ popKey d k, q ∈ d := by
  intro q hq
  exact List.mem_of_mem_filter hq

theorem docMatches_false_of_entry (q : Doc) (d : Doc) (k0 : String)
    (v0 : Value) (hmem : (k0, v0) ∈ q) (hnn : v0 ≠ Value.vNull)
    (hne : dget d k0 ≠ some v0) : docMatches q d = false := by
  by_contra hc
  have hall : docMatches q d = true := by simpa using hc
  simp only [docMatches, List.all_eq_true] at hall
  have := hall (k0, v0) hmem
  cases v0 with
  | vNull => exact hnn rfl
  | vStr s => exact hne (by simpa [valueMatches] using this)
  | vInt n => exact hne (by simpa [valueMatches] using this)
  | vBool b => exact hne (by simpa [valueMatches] using this)

theorem find_eq_noneFound (store : Store) (q : Doc)
    (h : ∀ d ∈ store, docMatches q d = false) :
    _find store q = FindResult.noneFound := by
  have hfil : store.filter (fun d => docMatches q d) = [] := by
    rw [List.filter_eq_nil_iff]
    intro a ha
    simp [h a ha]
  unfold _find
  rw [hfil]

theorem find_toBool_true (store : Store) (q : Doc)
    (hne : ∀ d ∈ store, docMatches q d = true → d ≠ [])
    (hex : ∃ d ∈ store, docMatches q d = true) :
    (_find store q).toBool = true := by
  obtain ⟨d, hd, hm⟩ := hex
  have hmem : d ∈ store.filter (fun x => docMatches q x) :=
    List.mem_filter.2 ⟨hd, by simpa using hm⟩
  unfold _find
  cases hfil : store.filter (fun x => docMatches q x) with
  | nil =>
      rw [hfil] at hmem
      simp at hmem
  | cons a t =>
      cases t with
      | nil =>
          rw [hfil] at hmem
          simp at hmem
          have ha : a ∈ store.filter (fun x => docMatches q x) := by
            rw [hfil]; exact List.mem_cons_self _ _
          have := List.mem_filter.1 ha
          have hanil : a ≠ [] := hne a this.1 (by simpa using this.2)
          simp [FindResult.toBool, hanil]
      | cons b t' =>
          simp [FindResult.toBool]

/--
C1 — code bug.  The specification says signin on a password-bearing record
must verify the supplied password and fail like "not found" when it does
not verify, in particular when the password is missing.  The code guards
the verification with `if _password:` — the check is skipped entirely when
the caller supplies no password — so a password-bearing record can be
signed into without any password.  This theorem evaluates the embedded
code at the failing input: one stored record whose `_password` is a hash,
signin with `None` as the password — a session token is issued.
-/
theorem signin_missing_password_issues_token :
    _signin [[("_key", Value.vStr "alice"),
              ("_password", Value.vStr (phash "pw")),
              ("_id", Value.vStr (hexgen 0))]]
        "alice" none [] 0 100
      = SigninResult.token (Token.signed
          (JwtContent.jDoc [("_key", Value.vStr "alice"),
                            ("_password", Value.vStr (phash "pw"))])
          (some 100) SERVER_SECRET) := by decide

/--
C6 — counterexample.  The claim describes a persistent attempt counter
capped at `maxAttempts`, after which even the correct code is refused.  The
embedded OTP implementation is stateless: `_passver` only compares the
submitted code with the code decoded from the token, so after two wrong
attempts (`maxAttempts = 2` here) the correct code still verifies — there
is no attempt counter to exhaust.
-/
theorem passver_after_wrong_attempts_still_true :
    _passver "0000" (_passgen (fun _ => 1) 4 (some 50)).2 10 = false
    ∧ _passver "2222" (_passgen (fun _ => 1) 4 (some 50)).2 10 = false
    ∧ _passver "1111" (_passgen (fun _ => 1) 4 (some 50)).2 10 = true := by
  decide

/--
C6 — amended.  OTP verification keeps no per-challenge state: `_passver`
returns true exactly when the token is live (unexpired, validly signed)
and the submitted code equals the code embedded in it, independent of how
many earlier wrong attempts were made; no attempt counter exists.
-/
theorem passver_stateless (digits : Nat → Nat) (length e now : Nat)
    (code : String) :
    _passver code (_passgen digits length (some e)).2 now
      = (decide (now < e) && (code == (_passgen digits length (some e)).1)) := by
  unfold _passver _passgen jwtenc jwtdec
  by_cases h : now < e <;> simp [h]

/--
C7 — confirmed.  Round trip of the token utilities: a token encoded with
content and an expiration instant (issuance time plus a positive ttl)
decodes to the original content at any instant before the ttl elapses, and
decodes to null at any instant after it has elapsed.
-/
theorem token_roundtrip (content : JwtContent) (t0 ttl now : Nat)
    (_httl : 0 < ttl) :
    (now < t0 + ttl →
      jwtdec (jwtenc content (some (t0 + ttl))) now = some content)
    ∧ (t0 + ttl < now →
      jwtdec (jwtenc content (some (t0 + ttl))) now = none) := by
  constructor
  · intro h
    simp [jwtenc, jwtdec, h]
  · intro h
    have hn : ¬(now < t0 + ttl) := by omega
    simp [jwtenc, jwtdec, hn]

theorem token_roundtrip_witness :
    (jwtdec (jwtenc (JwtContent.jStr "x") (some 5)) 3
        = some (JwtContent.jStr "x"))
    ∧ (jwtdec (jwtenc (JwtContent.jStr "x") (some 5)) 9 = none) :=
  ⟨(token_roundtrip (JwtContent.jStr "x") 0 5 3 (by decide)).1 (by decide),
   (token_roundtrip (JwtContent.jStr "x") 0 5 9 (by decide)).2 (by decide)⟩

/--
C8 — confirmed.  `jwtdec` is total over every token shape and collapses
every failure mode — malformed input, wrong signature, expired token —
into the single null outcome, and otherwise returns exactly the embedded
content: there is no third behaviour and no distinction between failure
causes.
-/
theorem tokendec_total_collapse (tok : Token) (now : Nat) :
    ((∃ s, tok = Token.garbage s) → jwtdec tok now = none)
    ∧ (∀ c e k, tok = Token.signed c e k → k ≠ SERVER_SECRET →
        jwtdec tok now = none)
    ∧ (∀ c e k, tok = Token.signed c (some e) k → e ≤ now →
        jwtdec tok now = none)
    ∧ (jwtdec tok now = none
        ∨ ∃ c e k, tok = Token.signed c e k ∧ jwtdec tok now = some c) := by
  refine ⟨?_, ?_, ?_, ?_⟩
  · rintro ⟨s, rfl⟩
    simp [jwtdec]
  · rintro c e k rfl hk
    simp [jwtdec, hk]
  · rintro c e k rfl he
    have : ¬(now < e) := by omega
    simp [jwtdec, this]
  · cases tok with
    | garbage s => left; simp [jwtdec]
    | signed c e k =>
        by_cases hk : k = SERVER_SECRET
        · cases e with
          | none => right; exact ⟨c, none, k, rfl, by simp [jwtdec, hk]⟩
          | some x =>
              by_cases hx : now < x
              · right; exact ⟨c, some x, k, rfl, by simp [jwtdec, hk, hx]⟩
              · left; simp [jwtdec, hk, hx]
        · left; simp [jwtdec, hk]

theorem tokendec_total_collapse_witness :
    jwtdec (Token.garbage "zzz") 0 = none
    ∧ jwtdec (Token.signed (JwtContent.jStr "x") none "wrong") 0 = none
    ∧ jwtdec (Token.signed (JwtContent.jStr "x") (some 3) SERVER_SECRET) 7
        = none :=
  ⟨(tokendec_total_collapse (Token.garbage "zzz") 0).1 ⟨"zzz", rfl⟩,
   (tokendec_total_collapse
      (Token.signed (JwtContent.jStr "x") none "wrong") 0).2.1
      (JwtContent.jStr "x") none "wrong" rfl (by decide),
   (tokendec_total_collapse
      (Token.signed (JwtContent.jStr "x") (some 3) SERVER_SECRET) 7).2.2.1
      (JwtContent.jStr "x") 3 SERVER_SECRET rfl (by decide)⟩

theorem phash_ne_self (p : String) : phash p ≠ p := by
  intro h
  have hlen := congrArg String.length h
  rw [phash, String.length_append] at hlen
  have h7 : "bcrypt$".length = 7 := rfl
  omega

theorem signup_no_conflict_eq (st : AuthState) (key : String)
    (pw : Option String) (document : Doc)
    (hc : (_find st.store [("_key", Value.vStr key)]).toBool = false) :
    _signup st key pw document =
      (some (hexgen st.nextId),
       ⟨st.store ++
          [dset (dmerge [("_key", Value.vStr key),
                         ("_password", signupPw pw)] document)
             "_id" (Value.vStr (hexgen st.nextId))],
        st.nextId + 1⟩) := by
  unfold _signup
  rw [if_neg (by simp [hc])]
  rfl

/--
C2 — counterexample.  The claim says caller-supplied `_key` / `_password`
duplicates in the signup document are stripped before insertion.  In the
code the caller's document is spread last, so its entries override the
injected ones: signup of key `alice` with password `pw` but a document
carrying its own `_key` and `_password` succeeds and inserts a record
whose `_key` is the caller's `mallory` and whose `_password` is the
caller's raw `evil` — neither the key argument nor the password hash.
-/
theorem signup_caller_overrides :
    ((_signup ⟨[], 0⟩ "alice" (some "pw")
        [("_key", Value.vStr "mallory"), ("_password", Value.vStr "evil")]).1
      = some (hexgen 0))
    ∧ (dget ((_signup ⟨[], 0⟩ "alice" (some "pw")
        [("_key", Value.vStr "mallory"),
         ("_password", Value.vStr "evil")]).2.store.headD []) "_key"
      ≠ some (Value.vStr "alice"))
    ∧ (dget ((_signup ⟨[], 0⟩ "alice" (some "pw")
        [("_key", Value.vStr "mallory"),
         ("_password", Value.vStr "evil")]).2.store.headD []) "_password"
      ≠ some (Value.vStr (phash "pw"))) := by
  decide

/--
C2 — amended.  For every signup call that succeeds and whose caller
document contains no `_key` or `_password` entry of its own, the inserted
document's `_key` equals the key argument and its `_password` equals the
hash of the (non-empty) password argument, or null when no password was
given.  Caller-supplied `_key`/`_password` duplicates are not stripped:
they override the injected values (see the counterexample).
-/
theorem signup_injected_fields (st : AuthState) (key : String)
    (pw : Option String) (document : Doc) (r : String)
    (hk : hasKey document "_key" = false)
    (hp : hasKey document "_password" = false)
    (hpw : pw ≠ some "")
    (hs : (_signup st key pw document).1 = some r) :
    ∃ newdoc, (_signup st key pw document).2.store = st.store ++ [newdoc]
      ∧ dget newdoc "_key" = some (Value.vStr key)
      ∧ (pw = none → dget newdoc "_password" = some Value.vNull)
      ∧ (∀ p, pw = some p →
          dget newdoc "_password" = some (Value.vStr (phash p))) := by
  have hc : (_find st.store [("_key", Value.vStr key)]).toBool = false := by
    by_contra h
    have htrue : (_find st.store [("_key", Value.vStr key)]).toBool = true := by
      simpa using h
    unfold _signup at hs
    rw [if_pos (by simp [htrue])] at hs
    exact Option.noConfusion hs
  rw [signup_no_conflict_eq st key pw document hc] at hs ⊢
  refine ⟨_, rfl, ?_, ?_, ?_⟩
  · rw [dget_dset, if_neg (by decide), dget_dmerge_of_absent _ _ _ hk]
    rfl
  · intro hnone
    subst hnone
    rw [dget_dset, if_neg (by decide), dget_dmerge_of_absent _ _ _ hp]
    rfl
  · intro p hsome
    subst hsome
    have hne : p ≠ "" := fun h => hpw (by rw [h])
    have hie : p.isEmpty = false := by
      by_contra hie'
      exact hne ((String.isEmpty_iff p).1 (by simpa using hie'))
    rw [dget_dset, if_neg (by decide), dget_dmerge_of_absent _ _ _ hp]
    have : dget [("_key", Value.vStr key), ("_password", signupPw (some p))]
        "_password" = some (signupPw (some p)) := rfl
    rw [this]
    simp [signupPw, hie]

theorem signup_injected_fields_witness :
    ∃ newdoc,
      (_signup ⟨[], 0⟩ "w" (some "pw") [("role", Value.vStr "admin")]).2.store
        = [] ++ [newdoc]
      ∧ dget newdoc "_key" = some (Value.vStr "w")
      ∧ ((some "pw" : Option String) = none →
          dget newdoc "_password" = some Value.vNull)
      ∧ (∀ p, (some "pw" : Option String) = some p →
          dget newdoc "_password" = some (Value.vStr (phash p))) :=
  signup_injected_fields ⟨[], 0⟩ "w" (some "pw") [("role", Value.vStr "admin")]
    (hexgen 0) (by decide) (by decide) (by decide) (by decide)

/--
C3 — counterexample.  The claim says the stored `_password` is never a
caller-supplied plaintext.  Because the signup document is spread after the
injected fields, a caller document carrying `_password` is stored
verbatim: signup of `bob` with password `secret` and document
`_password = hunter2` stores the plaintext `hunter2` — which is neither
the hash of itself nor the hash of the password argument.
-/
theorem signup_document_plaintext_password :
    dget ((_signup ⟨[], 0⟩ "bob" (some "secret")
        [("_password", Value.vStr "hunter2")]).2.store.headD []) "_password"
      = some (Value.vStr "hunter2")
    ∧ "hunter2" ≠ phash "hunter2"
    ∧ "hunter2" ≠ phash "secret" := by
  decide

/--
C3 — amended.  The hashing invariant holds for the password values the
auth core computes itself: a signup given a non-empty password (and whose
caller document does not itself carry `_password`) only adds documents
whose stored `_password` is the salted hash of that password, and a
refresh whose `$set` sets a non-empty string `_password` only produces
documents that either were already in the store or carry the salted hash
of the new password; in both cases the hash differs from the plaintext.
A caller-supplied `_password` entry inside the signup document, however,
is stored verbatim (see the counterexample).
-/
theorem password_hashing_invariant
    (st : AuthState) (key : String) (p : String) (document : Doc)
    (store : Store) (key2 : String) (f : Doc) (query : Doc) (s : String)
    (hp : p ≠ "") (hdoc : hasKey document "_password" = false)
    (hs : s ≠ "") (hfs : dget f "_password" = some (Value.vStr s)) :
    (∀ d ∈ (_signup st key (some p) document).2.store,
        d ∈ st.store ∨ dget d "_password" = some (Value.vStr (phash p)))
    ∧ (∀ d ∈ (_refresh store key2 [("$set", UpdateArg.fields f)] query).2,
        d ∈ store ∨ dget d "_password" = some (Value.vStr (phash s)))
    ∧ phash p ≠ p ∧ phash s ≠ s := by
  have hpie : p.isEmpty = false := by
    by_contra hie'
    exact hp ((String.isEmpty_iff p).1 (by simpa using hie'))
  have hsie : s.isEmpty = false := by
    by_contra hie'
    exact hs ((String.isEmpty_iff s).1 (by simpa using hie'))
  refine ⟨?_, ?_, phash_ne_self p, phash_ne_self s⟩
  · by_cases hc : (_find st.store [("_key", Value.vStr key)]).toBool = true
    · unfold _signup
      rw [if_pos (by simp [hc])]
      intro d hd
      exact Or.inl hd
    · rw [signup_no_conflict_eq st key (some p) document (by simpa using hc)]
      intro d hd
      rcases List.mem_append.1 hd with h1 | h1
      · exact Or.inl h1
      · right
        simp only [List.mem_singleton] at h1
        subst h1
        rw [dget_dset, if_neg (by decide), dget_dmerge_of_absent _ _ _ hdoc]
        have : dget [("_key", Value.vStr key),
            ("_password", signupPw (some p))] "_password"
            = some (signupPw (some p)) := rfl
        rw [this]
        simp [signupPw, hpie]
  · have hbc : buildConstruction [("$set", UpdateArg.fields f)]
        = some [("$set", UpdateArg.fields
            (dset f "_password" (Value.vStr (phash s))))] := by
      simp [buildConstruction, hfs, hsie]
    unfold _refresh
    by_cases hfind :
        (_find store (dmerge [("_key", Value.vStr key2)] query)).toBool = true
    · rw [if_neg (by simp [hfind])]
      rw [hbc]
      intro d hd
      simp only [_patch] at hd
      rcases List.mem_map.1 hd with ⟨d0, hd0, hmap⟩
      by_cases hm : docMatches [("_key", Value.vStr key2)] d0 = true
      · right
        rw [if_pos hm] at hmap
        subst hmap
        have happ : applyUpdate
            [("$set", UpdateArg.fields (dset f "_password" (Value.vStr (phash s))))] d0
            = dmerge d0 (dset f "_password" (Value.vStr (phash s))) := by
          simp [applyUpdate, applyOp]
        rw [happ]
        exact dget_dmerge_of_uniform d0 _ _ _
          (hasKey_dset_self f "_password" (Value.vStr (phash s)))
          (dset_uniform f "_password" (Value.vStr (phash s)))
      · left
        rw [if_neg hm] at hmap
        subst hmap
        exact hd0
    · rw [if_pos (by simp [hfind])]
      intro d hd
      exact Or.inl hd

theorem password_hashing_invariant_witness :
    (∀ d ∈ (_signup ⟨[], 0⟩ "w2" (some "pw")
        [("role", Value.vStr "user")]).2.store,
        d ∈ ([] : Store) ∨ dget d "_password" = some (Value.vStr (phash "pw")))
    ∧ (∀ d ∈ (_refresh [[("_key", Value.vStr "u"),
          ("_password", Value.vStr "old")]] "u"
          [("$set", UpdateArg.fields [("_password", Value.vStr "np")])] []).2,
        d ∈ [[("_key", Value.vStr "u"), ("_password", Value.vStr "old")]]
        ∨ dget d "_password" = some (Value.vStr (phash "np")))
    ∧ phash "pw" ≠ "pw" ∧ phash "np" ≠ "np" :=
  password_hashing_invariant ⟨[], 0⟩ "w2" "pw" [("role", Value.vStr "user")]
    [[("_key", Value.vStr "u"), ("_password", Value.vStr "old")]] "u"
    [("_password", Value.vStr "np")] [] "np"
    (by decide) (by decide) (by decide) (by decide)

/--
C4 — confirmed.  Signup with a key that already exists in the collection
returns the conflict outcome `None` and leaves the state (store and id
counter) exactly unchanged — no document is inserted, so the collection
still contains exactly the documents (and in particular exactly the one
record per key) it contained before.
-/
theorem signup_conflict_no_side_effects (st : AuthState) (key : String)
    (pw : Option String) (document : Doc)
    (hex : ∃ d ∈ st.store, dget d "_key" = some (Value.vStr key)) :
    _signup st key pw document = (none, st) := by
  have htrue : (_find st.store [("_key", Value.vStr key)]).toBool = true := by
    apply find_toBool_true
    · intro d hd hm
      simp only [docMatches, List.all_cons, List.all_nil,
        Bool.and_true] at hm
      have : dget d "_key" = some (Value.vStr key) := by
        simpa [valueMatches] using hm
      exact dget_ne_nil d _ _ this
    · obtain ⟨d, hd, hm⟩ := hex
      exact ⟨d, hd, by simp [docMatches, valueMatches, hm]⟩
  unfold _signup
  rw [if_pos (by simp [htrue])]

theorem signup_conflict_no_side_effects_witness :
    _signup ⟨[[("_key", Value.vStr "alice"),
               ("_password", Value.vStr (phash "pw"))]], 1⟩
        "alice" (some "other") [("x", Value.vInt 1)]
      = (none, ⟨[[("_key", Value.vStr "alice"),
                  ("_password", Value.vStr (phash "pw"))]], 1⟩) :=
  signup_conflict_no_side_effects
    ⟨[[("_key", Value.vStr "alice"), ("_password", Value.vStr (phash "pw"))]], 1⟩
    "alice" (some "other") [("x", Value.vInt 1)]
    ⟨[("_key", Value.vStr "alice"), ("_password", Value.vStr (phash "pw"))],
      by decide, by decide⟩

/--
C9 — confirmed.  When zero records or more than one record match the
`_key`-plus-`query` filter, signin returns Unauthorized (`None`) and
retrieve returns `None`; an ambiguous key is never resolved to one of the
matching records, and retrieve leaves the store exactly as it found it.
-/
theorem ambiguous_key_fails (store : Store) (key : String) (pw : Option String)
    (query : Doc) (now lifetime : Nat)
    (h : (store.filter (fun d =>
            docMatches (dmerge [("_key", Value.vStr key)] query) d)).length = 0
       ∨ 2 ≤ (store.filter (fun d =>
            docMatches (dmerge [("_key", Value.vStr key)] query) d)).length) :
    _signin store key pw query now lifetime = SigninResult.unauthorized
    ∧ (_retrieve store (Value.vStr key) query).1 = none
    ∧ (_retrieve store (Value.vStr key) query).2 = store := by
  rcases h with h0 | h2
  · have hnil : store.filter (fun d =>
        docMatches (dmerge [("_key", Value.vStr key)] query) d) = [] :=
      List.length_eq_zero.1 h0
    have hfind : _find store (dmerge [("_key", Value.vStr key)] query)
        = FindResult.noneFound := by
      unfold _find
      rw [hnil]
    refine ⟨?_, ?_, rfl⟩
    · unfold _signin
      rw [hfind]
    · unfold _retrieve
      rw [hfind]
  · cases hfil : store.filter (fun d =>
        docMatches (dmerge [("_key", Value.vStr key)] query) d) with
    | nil =>
        rw [hfil] at h2
        simp at h2
    | cons a t =>
        cases t with
        | nil =>
            rw [hfil] at h2
            simp at h2
        | cons b t' =>
            have hfind : _find store (dmerge [("_key", Value.vStr key)] query)
                = FindResult.many (a :: b :: t') := by
              unfold _find
              rw [hfil]
            refine ⟨?_, ?_, rfl⟩
            · unfold _signin
              rw [hfind]
            · unfold _retrieve
              rw [hfind]

theorem ambiguous_key_fails_witness :
    _signin [[("_key", Value.vStr "dup")], [("_key", Value.vStr "dup")]] "dup"
        none [] 0 100 = SigninResult.unauthorized
    ∧ (_retrieve [[("_key", Value.vStr "dup")], [("_key", Value.vStr "dup")]]
        (Value.vStr "dup") []).1 = none
    ∧ (_retrieve [[("_key", Value.vStr "dup")], [("_key", Value.vStr "dup")]]
        (Value.vStr "dup") []).2
      = [[("_key", Value.vStr "dup")], [("_key", Value.vStr "dup")]] :=
  ambiguous_key_fails
    [[("_key", Value.vStr "dup")], [("_key", Value.vStr "dup")]]
    "dup" none [] 0 100 (Or.inr (by decide))

theorem docMatches_singleton_key (d : Doc) (key : String) :
    docMatches [("_key", Value.vStr key)] d
      = (dget d "_key" == some (Value.vStr key)) := by
  simp [docMatches, valueMatches]

theorem refresh_store_cases (store : Store) (key : String) (spec : UpdateSpec)
    (query : Doc) :
    ((_find store (dmerge [("_key", Value.vStr key)] query)).toBool = false
      ∧ (_refresh store key spec query).2 = store)
    ∨ ((_find store (dmerge [("_key", Value.vStr key)] query)).toBool = true
      ∧ buildConstruction spec = none
      ∧ (_refresh store key spec query).2 = store)
    ∨ ((_find store (dmerge [("_key", Value.vStr key)] query)).toBool = true
      ∧ ∃ construction, buildConstruction spec = some construction
        ∧ (_refresh store key spec query).2
          = store.map (fun d => if docMatches [("_key", Value.vStr key)] d
              then applyUpdate construction d else d)) := by
  unfold _refresh
  by_cases hfind :
      (_find store (dmerge [("_key", Value.vStr key)] query)).toBool = true
  · rw [if_neg (by simp [hfind])]
    cases hbc : buildConstruction spec with
    | none =>
        right; left
        exact ⟨hfind, rfl, rfl⟩
    | some construction =>
        right; right
        exact ⟨hfind, construction, rfl, rfl⟩
  · rw [if_pos (by simp [hfind])]
    left
    exact ⟨by simpa using hfind, rfl⟩

/--
C10 — confirmed.  Frame property of refresh: only documents whose `_key`
equals the given key can be modified (every document at a position whose
`_key` differs is returned unchanged, and the store keeps its length), and
the optional `query` filter takes part only in the pre-update existence
check: once that check passes, the patch filter is `_key` alone, so the
update is applied to every document whose `_key` matches — including
documents that do not satisfy `query`.
-/
theorem refresh_frame (store : Store) (key : String) (spec : UpdateSpec)
    (query : Doc) :
    ((_refresh store key spec query).2.length = store.length)
    ∧ (∀ i, i < store.length →
        dget (store.getD i []) "_key" ≠ some (Value.vStr key) →
        (_refresh store key spec query).2.getD i [] = store.getD i [])
    ∧ ((_find store (dmerge [("_key", Value.vStr key)] query)).toBool = true →
        ∀ construction, buildConstruction spec = some construction →
        ∀ i, i < store.length →
          dget (store.getD i []) "_key" = some (Value.vStr key) →
          (_refresh store key spec query).2.getD i []
            = applyUpdate construction (store.getD i [])) := by
  have hgetD : ∀ (i : Nat), i < store.length →
      store[i]? = some (store.getD i []) := by
    intro i hi
    rw [List.getD_eq_getElem?_getD]
    cases hx : store[i]? with
    | none =>
        rw [List.getElem?_eq_none_iff] at hx
        omega
    | some d => rfl
  have hmap : ∀ (f : Doc → Doc) (i : Nat), i < store.length →
      (store.map f).getD i [] = f (store.getD i []) := by
    intro f i hi
    rw [List.getD_eq_getElem?_getD, List.getElem?_map, hgetD i hi]
    rfl
  rcases refresh_store_cases store key spec query with
    ⟨hf, hst⟩ | ⟨hf, hbc, hst⟩ | ⟨hf, construction0, hbc, hst⟩
  · refine ⟨by rw [hst], fun i _ _ => by rw [hst], ?_⟩
    intro hfind
    rw [hfind] at hf
    exact absurd hf (by simp)
  · refine ⟨by rw [hst], fun i _ _ => by rw [hst], ?_⟩
    intro _ c hc
    rw [hbc] at hc
    exact Option.noConfusion hc
  · refine ⟨?_, ?_, ?_⟩
    · rw [hst, List.length_map]
    · intro i h1 hne
      have hm : docMatches [("_key", Value.vStr key)] (store.getD i [])
          = false := by
        rw [docMatches_singleton_key]
        exact beq_eq_false_iff_ne.2 hne
      rw [hst, hmap _ i h1]
      simp only [hm]
      rw [if_neg (by simp)]
    · intro _ c hc i h1 hkey
      have hcc : c = construction0 := by
        rw [hbc] at hc
        exact (Option.some.injEq _ _ ▸ hc).symm
      subst hcc
      have hm : docMatches [("_key", Value.vStr key)] (store.getD i [])
          = true := by
        rw [docMatches_singleton_key]
        exact beq_iff_eq.2 hkey
      rw [hst, hmap _ i h1]
      simp only [hm]
      rw [if_pos trivial]

theorem refresh_frame_witness :
    ((_refresh [[("_key", Value.vStr "u"), ("active", Value.vBool true)],
                [("_key", Value.vStr "u"), ("active", Value.vBool false)],
                [("_key", Value.vStr "v")]] "u"
        [("$set", UpdateArg.fields [("role", Value.vStr "x")])]
        [("active", Value.vBool true)]).2.length = 3)
    ∧ ((_refresh [[("_key", Value.vStr "u"), ("active", Value.vBool true)],
                  [("_key", Value.vStr "u"), ("active", Value.vBool false)],
                  [("_key", Value.vStr "v")]] "u"
        [("$set", UpdateArg.fields [("role", Value.vStr "x")])]
        [("active", Value.vBool true)]).2.getD 2 [] = [("_key", Value.vStr "v")])
    ∧ ((_refresh [[("_key", Value.vStr "u"), ("active", Value.vBool true)],
                  [("_key", Value.vStr "u"), ("active", Value.vBool false)],
                  [("_key", Value.vStr "v")]] "u"
        [("$set", UpdateArg.fields [("role", Value.vStr "x")])]
        [("active", Value.vBool true)]).2.getD 1 []
      = applyUpdate [("$set", UpdateArg.fields [("role", Value.vStr "x")])]
          [("_key", Value.vStr "u"), ("active", Value.vBool false)]) := by
  have h := refresh_frame
    [[("_key", Value.vStr "u"), ("active", Value.vBool true)],
     [("_key", Value.vStr "u"), ("active", Value.vBool false)],
     [("_key", Value.vStr "v")]] "u"
    [("$set", UpdateArg.fields [("role", Value.vStr "x")])]
    [("active", Value.vBool true)]
  refine ⟨by rw [h.1]; rfl, ?_, ?_⟩
  · exact h.2.1 2 (by decide) (by decide)
  · exact h.2.2 (by decide)
      [("$set", UpdateArg.fields
        [("role", Value.vStr "x")])] (by decide) 1 (by decide) (by decide)

theorem signin_token_shape (store : Store) (key : String) (pw : Option String)
    (query : Doc) (now lifetime : Nat) (tok : Token)
    (hsig : _signin store key pw query now lifetime = SigninResult.token tok) :
    ∃ auth, _find store (dmerge [("_key", Value.vStr key)] query)
        = FindResult.one auth
      ∧ tok = jwtenc (JwtContent.jDoc (dmerge
          [("_key", Value.vStr key),
           ("_password", (dget auth "_password").getD Value.vNull)] query))
          (some (now + lifetime)) := by
  unfold _signin at hsig
  split at hsig
  · exact absurd hsig (by simp)
  · exact absurd hsig (by simp)
  · rename_i auth hfindEq
    refine ⟨auth, hfindEq, ?_⟩
    by_cases he : auth.isEmpty = true
    · rw [if_pos he] at hsig
      exact absurd hsig (by simp)
    · rw [if_neg he] at hsig
      split at hsig
      · unfold signinIssue at hsig
        injection hsig with h
        exact h.symm
      · rename_i p
        by_cases hpe : p.isEmpty = true
        · rw [if_pos hpe] at hsig
          unfold signinIssue at hsig
          injection hsig with h
          exact h.symm
        · rw [if_neg hpe] at hsig
          split at hsig
          · rename_i hsh hdiscr
            by_cases hck : pcheck p hsh = true
            · rw [if_pos hck] at hsig
              unfold signinIssue at hsig
              injection hsig with h
              exact h.symm
            · rw [if_neg hck] at hsig
              exact absurd hsig (by simp)
          · exact absurd hsig (by simp)

/--
C5 — confirmed.  A refresh that changes the stored password hash (so that
no record keyed by `_key` still carries the hash embedded in an
already-issued token's payload) invalidates that token: the
`authenticated` request check decodes the old token, pops its `_key`, and
re-runs the lookup with the embedded hash as an equality filter — which no
longer matches any record — so the request is rejected as
unauthenticated.
-/
theorem refresh_invalidates_old_token
    (store : Store) (key : String) (pw : Option String) (query : Doc)
    (now lifetime : Nat) (tok : Token) (spec : UpdateSpec) (rquery : Doc)
    (hOld : String) (now2 : Nat)
    (hqk : hasKey query "_key" = false)
    (hqp : hasKey query "_password" = false)
    (hsig : _signin store key pw query now lifetime = SigninResult.token tok)
    (hstored : ∀ d, _find store (dmerge [("_key", Value.vStr key)] query)
        = FindResult.one d → dget d "_password" = some (Value.vStr hOld))
    (hchanged : ∀ d ∈ (_refresh store key spec rquery).2,
        dget d "_key" = some (Value.vStr key) →
        dget d "_password" ≠ some (Value.vStr hOld)) :
    authenticated (_refresh store key spec rquery).2 (some tok) now2
      = AuthCheck.reject := by
  obtain ⟨auth, hfind, htok⟩ :=
    signin_token_shape store key pw query now lifetime tok hsig
  have hOldAuth : dget auth "_password" = some (Value.vStr hOld) :=
    hstored auth hfind
  set newStore := (_refresh store key spec rquery).2 with hns
  set payload := dmerge
      [("_key", Value.vStr key), ("_password", Value.vStr hOld)] query with hpl
  have htok2 : tok = Token.signed (JwtContent.jDoc payload)
      (some (now + lifetime)) SERVER_SECRET := by
    rw [htok, hOldAuth]
    rfl
  have hpk : dget payload "_key" = some (Value.vStr key) := by
    rw [hpl, dget_dmerge_of_absent _ _ _ hqk]
    rfl
  have hpp : dget payload "_password" = some (Value.vStr hOld) := by
    rw [hpl, dget_dmerge_of_absent _ _ _ hqp]
    rfl
  have hpne : payload.isEmpty = false := by
    cases hplist : payload with
    | nil =>
        rw [hplist] at hpk
        simp [dget] at hpk
    | cons a t => rfl
  have hrestk : hasKey (popKey payload "_key") "_key" = false :=
    (dget_eq_none_iff _ _).1 (dget_popKey_self payload "_key")
  have hfiltk : dget (dmerge [("_key", Value.vStr key)]
      (popKey payload "_key")) "_key" = some (Value.vStr key) := by
    rw [dget_dmerge_of_absent _ _ _ hrestk]
    rfl
  have hpuni : ∀ q ∈ payload, q.1 = "_password" → q.2 = Value.vStr hOld := by
    rw [hpl]
    apply dmerge_uniform
    · intro q hq hq1
      rcases List.mem_cons.1 hq with h1 | h1
      · rw [h1] at hq1
        exact absurd hq1 (by simp)
      · simp at h1
        rw [h1]
    · exact hqp
  have hrestp : dget (popKey payload "_key") "_password"
      = some (Value.vStr hOld) := by
    rw [dget_popKey_ne payload "_key" "_password" (by decide)]
    exact hpp
  have hfiltp : dget (dmerge [("_key", Value.vStr key)]
      (popKey payload "_key")) "_password" = some (Value.vStr hOld) := by
    apply dget_dmerge_of_uniform
    · exact hasKey_of_dget_some _ _ _ hrestp
    · intro q hq hq1
      exact hpuni q (popKey_subset payload "_key" q hq) hq1
  have hall : ∀ d ∈ newStore, docMatches (dmerge [("_key", Value.vStr key)]
      (popKey payload "_key")) d = false := by
    intro d hd
    by_cases hdk : dget d "_key" = some (Value.vStr key)
    · exact docMatches_false_of_entry _ d "_password" (Value.vStr hOld)
        (dget_mem _ _ _ hfiltp) (by simp) (hchanged d hd hdk)
    · exact docMatches_false_of_entry _ d "_key" (Value.vStr key)
        (dget_mem _ _ _ hfiltk) (by simp) hdk
  have hfind2 : _find newStore (dmerge [("_key", Value.vStr key)]
      (popKey payload "_key")) = FindResult.noneFound :=
    find_eq_noneFound _ _ hall
  have hretr : (_retrieve newStore (Value.vStr key)
      (popKey payload "_key")).1 = none := by
    unfold _retrieve
    rw [hfind2]
  rw [htok2]
  by_cases hlive : now2 < now + lifetime
  · by_cases hke : key.isEmpty = true
    · simp [authenticated, jwtdec, hlive, contentTruthy, hpne, hpk,
        truthy, hke]
    · simp [authenticated, jwtdec, hlive, contentTruthy, hpne, hpk,
        truthy, hke, hretr]
  · simp [authenticated, jwtdec, hlive]

theorem refresh_invalidates_old_token_witness :
    authenticated
      (_refresh [[("_key", Value.vStr "alice"),
                  ("_password", Value.vStr (phash "pw")),
                  ("_id", Value.vStr (hexgen 0))]] "alice"
        [("$set", UpdateArg.fields [("_password", Value.vStr "newpw")])] []).2
      (some (Token.signed
        (JwtContent.jDoc [("_key", Value.vStr "alice"),
                          ("_password", Value.vStr (phash "pw"))])
        (some 100) SERVER_SECRET)) 10
      = AuthCheck.reject :=
  refresh_invalidates_old_token
    [[("_key", Value.vStr "alice"), ("_password", Value.vStr (phash "pw")),
      ("_id", Value.vStr (hexgen 0))]]
    "alice" (some "pw") [] 0 100
    (Token.signed
      (JwtContent.jDoc [("_key", Value.vStr "alice"),
                        ("_password", Value.vStr (phash "pw"))])
      (some 100) SERVER_SECRET)
    [("$set", UpdateArg.fields [("_password", Value.vStr "newpw")])] []
    (phash "pw") 10
    (by decide) (by decide) (by decide)
    (by
      intro d hd
      have h0 : _find
          [[("_key", Value.vStr "alice"), ("_password", Value.vStr (phash "pw")),
            ("_id", Value.vStr (hexgen 0))]]
          (dmerge [("_key", Value.vStr "alice")] [])
          = FindResult.one
            [("_key", Value.vStr "alice"), ("_password", Value.vStr (phash "pw")),
             ("_id", Value.vStr (hexgen 0))] := by decide
      rw [h0] at hd
      injection hd with h
      rw [← h]
      decide)
    (by
      intro d hd hk
      have hns : (_refresh
          [[("_key", Value.vStr "alice"), ("_password", Value.vStr (phash "pw")),
            ("_id", Value.vStr (hexgen 0))]] "alice"
          [("$set", UpdateArg.fields [("_password", Value.vStr "newpw")])] []).2
          = [[("_key", Value.vStr "alice"),
              ("_password", Value.vStr (phash "newpw")),
              ("_id", Value.vStr (hexgen 0))]] := by decide
      rw [hns] at hd
      simp only [List.mem_singleton] at hd
      rw [hd]
      decide)

end Coglex
